import Mathlib

/-!
Verification of the LSP client core of the serena repository.

The data model and operations below are shallow embeddings of the Python
source under `src/`.  Parts of the core that the repository exercises only
through its tests (the base `SolidLanguageServer` class and the
`GetDiagnosticsTool`) are modelled from the specification; every such
definition carries a doc comment starting with `Modelled from the spec:`.
-/

/-! ### Diagnostic severity mapping (Diagnostic Service) -/

/-- Modelled from the spec: `GetDiagnosticsTool._get_severity_name`
(src/serena/tools/symbol_tools.py is not in the sources).  Severity
integer to name mapping: 1 to error, 2 to warning, 3 to information,
4 to hint, missing to "unknown", any other integer n to "unknown(n)". -/
def get_severity_name (severity : Option Int) : String :=
  match severity with
  | none => "unknown"
  | some n =>
    if n = 1 then "error"
    else if n = 2 then "warning"
    else if n = 3 then "information"
    else if n = 4 then "hint"
    else "unknown(" ++ toString n ++ ")"

/-- An LSP position: zero-based line and character. -/
structure LspPos where
  line : Int
  character : Int
deriving DecidableEq, Repr

/-- An LSP range with a start and an end position. -/
structure LspRange where
  start : LspPos
  stop : LspPos
deriving DecidableEq, Repr

/-- A raw diagnostic item as returned by a language server: `severity`,
`code` and `source` are optional on the wire. -/
structure RawDiagnostic where
  severity : Option Int
  message : String
  code : Option String
  source : Option String
  range : LspRange
deriving DecidableEq, Repr

/-- The normalized severity field: the original integer when present,
otherwise the string "unknown". -/
inductive SeverityVal where
  | int (n : Int)
  | unknown
deriving DecidableEq, Repr

/-- A normalized diagnostic item: every key is present. -/
structure NormDiagnostic where
  severity : SeverityVal
  severity_name : String
  message : String
  code : String
  source : String
  range : LspRange
deriving DecidableEq, Repr

/-- Modelled from the spec: the normalization step of
`GetDiagnosticsTool.apply` (not in the sources).  A missing `code` or
`source` becomes the empty string, a missing severity yields severity
"unknown" and severity name "unknown"; `message` and `range` pass
through. -/
def normalize_diagnostic (d : RawDiagnostic) : NormDiagnostic :=
  { severity := match d.severity with
      | some n => SeverityVal.int n
      | none => SeverityVal.unknown
    severity_name := get_severity_name d.severity
    message := d.message
    code := d.code.getD ""
    source := d.source.getD ""
    range := d.range }

example : get_severity_name (some 1) = "error" := by decide
example : get_severity_name (some 999) = "unknown(999)" := by decide
example : get_severity_name none = "unknown" := by decide

/-! ### Ignore Filter -/

/-- Modelled from the spec: glob matching as used by the Ignore Filter
(the matcher itself is not in the sources).  `*` matches any sequence of
characters and `?` matches any single character; other characters match
themselves. -/
def globMatch : List Char → List Char → Bool
  | [], s => s.isEmpty
  | p :: ps, s =>
    if p == '*' then s.tails.any (fun t => globMatch ps t)
    else
      match s with
      | [] => false
      | c :: cs => (p == c || p == '?') && globMatch ps cs

example : globMatch "ignored_*".data "ignored_dir".data = true := by decide
example : globMatch "*cripts".data "scripts".data = true := by decide
example : globMatch "*cripts".data "lib".data = false := by decide
example : globMatch "scripts".data "scripts".data = true := by decide

/-- `dirname.startswith(".")`: the hidden-directory rule. -/
def startsWithDot (s : String) : Bool :=
  match s.data with
  | [] => false
  | c :: _ => c == '.'

/-- Modelled from the spec: a directory name matches the active
`IgnoreSpec` when some pattern equals it as a simple name or matches it
as a glob. -/
def dirname_matches_spec (patterns : List String) (d : String) : Bool :=
  patterns.any (fun p => p == d || globMatch p.data d.data)

namespace SolidLanguageServer

/-- Modelled from the spec: the base class `is_ignored_dirname`
(solidlsp/ls.py is not in the sources).  True when the name begins with
`.` (hidden-dir rule) or matches any pattern of the `IgnoreSpec` as a
simple name or as a glob. -/
def is_ignored_dirname (patterns : List String) (dirname : String) : Bool :=
  startsWithDot dirname || dirname_matches_spec patterns dirname

end SolidLanguageServer

namespace FSharpLanguageServer

/-- The F# profile's default ignored directory names, from
`FSharpLanguageServer.is_ignored_dirname`. -/
def default_ignored_dirnames : List String :=
  ["bin", "obj", "packages", ".paket", "paket-files", ".fake", ".ionide"]

/-- `FSharpLanguageServer.is_ignored_dirname`: the base-class rule or
membership in the F# default list. -/
def is_ignored_dirname (patterns : List String) (dirname : String) : Bool :=
  SolidLanguageServer.is_ignored_dirname patterns dirname ||
    default_ignored_dirnames.contains dirname

end FSharpLanguageServer

namespace TomlLanguageServer

/-- Modelled from the spec: the TOML profile's default ignored directory
names (the TOML language server module is not in the sources): `target`,
`.cargo`, `node_modules`. -/
def default_ignored_dirnames : List String :=
  ["target", ".cargo", "node_modules"]

/-- Modelled from the spec: the TOML server's `is_ignored_dirname`, the
base-class rule or membership in the TOML default list. -/
def is_ignored_dirname (patterns : List String) (dirname : String) : Bool :=
  SolidLanguageServer.is_ignored_dirname patterns dirname ||
    default_ignored_dirnames.contains dirname

end TomlLanguageServer

example : FSharpLanguageServer.is_ignored_dirname [] "obj" = true := by decide
example : FSharpLanguageServer.is_ignored_dirname [] ".ionide" = true := by decide
example : FSharpLanguageServer.is_ignored_dirname [] "src" = false := by decide
example : TomlLanguageServer.is_ignored_dirname [] "target" = true := by decide
example : TomlLanguageServer.is_ignored_dirname [] ".git" = true := by decide
example : TomlLanguageServer.is_ignored_dirname [] "lib" = false := by decide
example : TomlLanguageServer.is_ignored_dirname [] "__pycache__" = false := by decide

/-! ### Reference post-filtering and workspace tree walk -/

/-- A location returned by `references`/`definition`.  The relative path
is represented by its components: the last component is the file name,
the preceding ones are directory names. -/
structure Location where
  relativePath : List String
deriving DecidableEq, Repr

/-- Modelled from the spec: a relative path is ignored when one of its
directory components matches the active `IgnoreSpec`. -/
def is_ignored_relpath (patterns : List String) (relativePath : List String) : Bool :=
  relativePath.dropLast.any (fun d => dirname_matches_spec patterns d)

/-- Modelled from the spec: results of `references` are post-filtered by
the Ignore Filter on the returned `relativePath`. -/
def filter_references (patterns : List String) (locs : List Location) : List Location :=
  locs.filter (fun l => !(is_ignored_relpath patterns l.relativePath))

mutual
/-- A filesystem entry: a file, or a directory with its children. -/
inductive FSEntry where
  | file : String → FSEntry
  | dir : String → FSForest → FSEntry
deriving DecidableEq, Repr
/-- A list of filesystem entries. -/
inductive FSForest where
  | nil : FSForest
  | cons : FSEntry → FSForest → FSForest
deriving DecidableEq, Repr
end

mutual
/-- Modelled from the spec: the workspace walk of `full_symbol_tree`
prunes every directory whose name `is_ignored_dirname` accepts, keeping
the rest of the tree intact. -/
def pruneEntry (patterns : List String) : FSEntry → Option FSEntry
  | .file n => some (.file n)
  | .dir n cs =>
    if SolidLanguageServer.is_ignored_dirname patterns n then none
    else some (.dir n (pruneForest patterns cs))
/-- The walk over a list of sibling entries. -/
def pruneForest (patterns : List String) : FSForest → FSForest
  | .nil => .nil
  | .cons e rest =>
    match pruneEntry patterns e with
    | none => pruneForest patterns rest
    | some e2 => .cons e2 (pruneForest patterns rest)
end

mutual
/-- All directory names occurring in a tree. -/
def entryDirNames : FSEntry → List String
  | .file _ => []
  | .dir n cs => n :: forestDirNames cs
/-- All directory names occurring in a forest. -/
def forestDirNames : FSForest → List String
  | .nil => []
  | .cons e rest => entryDirNames e ++ forestDirNames rest
end

example :
    pruneForest ["scripts", "ignored_dir"]
      (.cons (.dir "lib" (.cons (.file "models.ex") .nil))
        (.cons (.dir "scripts" (.cons (.file "run.exs") .nil))
          (.cons (.dir "ignored_dir" .nil) .nil))) =
    .cons (.dir "lib" (.cons (.file "models.ex") .nil)) .nil := by decide

example :
    filter_references ["scripts", "ignored_*"]
      [⟨["lib", "models.ex"]⟩, ⟨["scripts", "run.exs"]⟩, ⟨["ignored_dir", "a.ex"]⟩] =
    [⟨["lib", "models.ex"]⟩] := by decide

/-! ### Containing symbol (Symbol Service) -/

/-- A symbol as reported by a language server, with its enclosing range. -/
structure UnifiedSymbol where
  name : String
  range : LspRange
deriving DecidableEq, Repr

/-- A candidate for `containing_symbol`: a symbol together with its depth
in the per-file symbol tree. -/
structure Candidate where
  sym : UnifiedSymbol
  depth : Nat
deriving DecidableEq, Repr

/-- Position order on LSP positions: line first, then character. -/
def pos_le (a b : LspPos) : Bool :=
  decide (a.line < b.line) || (a.line == b.line && decide (a.character ≤ b.character))

/-- A range contains a position when the position lies between the start
and the end of the range. -/
def range_contains (r : LspRange) (line col : Int) : Bool :=
  pos_le r.start ⟨line, col⟩ && pos_le ⟨line, col⟩ r.stop

/-- The tie-breaking key of a candidate: range extent (lines, then
characters), then depth, deeper first. -/
def candidate_key (c : Candidate) : Int × Int × Int :=
  (c.sym.range.stop.line - c.sym.range.start.line,
   c.sym.range.stop.character - c.sym.range.start.character,
   -(c.depth : Int))

/-- Strict lexicographic comparison of tie-breaking keys. -/
def key_lt (a b : Int × Int × Int) : Bool :=
  decide (a.1 < b.1) ||
    (a.1 == b.1 && (decide (a.2.1 < b.2.1) ||
      (a.2.1 == b.2.1 && decide (a.2.2 < b.2.2))))

/-- `better a b`: candidate `a` strictly precedes candidate `b`, i.e. it
has a smaller range, or an equal range and a greater depth. -/
def better (a b : Candidate) : Bool :=
  key_lt (candidate_key a) (candidate_key b)

/-- One step of the best-candidate fold: keep the accumulated candidate
unless the new one is strictly `better`. -/
def pick_step (acc : Option Candidate) (c : Candidate) : Option Candidate :=
  match acc with
  | none => some c
  | some b => if better c b then some c else some b

/-- Keep the best candidate of a list under `better`, if any. -/
def pick_best (l : List Candidate) : Option Candidate :=
  l.foldl pick_step none

/-- Modelled from the spec: `request_containing_symbol` (solidlsp/ls.py
is not in the sources).  When the server does not support the lookup
(`response = none`) the result is `none`, never an error; otherwise the
innermost symbol whose range contains the position — smallest range,
ties broken by deepest tree depth — or `none` when none contains it. -/
def request_containing_symbol (response : Option (List Candidate))
    (line col : Int) : Option UnifiedSymbol :=
  match response with
  | none => none
  | some syms =>
    (pick_best (syms.filter (fun c => range_contains c.sym.range line col))).map
      (fun c => c.sym)

example : request_containing_symbol none 1 5 = none := by decide
example :
    request_containing_symbol
      (some [⟨⟨"package", ⟨⟨0, 0⟩, ⟨5, 0⟩⟩⟩, 0⟩, ⟨⟨"name", ⟨⟨1, 0⟩, ⟨1, 10⟩⟩⟩, 1⟩])
      1 5 = some ⟨"name", ⟨⟨1, 0⟩, ⟨1, 10⟩⟩⟩ := by decide

/-! ### Diagnostics tool: validation and normalization -/

/-- The workspace as the diagnostics tool observes it: whether the agent
is in language-server mode, and which relative paths exist and are
directories. -/
structure Workspace where
  usingLanguageServer : Bool
  pathExists : String → Bool
  pathIsDir : String → Bool

/-- The failure taxonomy of the diagnostics operation. -/
inductive DiagError where
  | noLanguageServer (msg : String)
  | fileNotFound (msg : String)
  | expectedFile (msg : String)
  | languageServerFailure (msg : String)
deriving DecidableEq, Repr

instance {ε α : Type} [DecidableEq ε] [DecidableEq α] : DecidableEq (Except ε α)
  | .error a, .error b => decidable_of_iff (a = b) (by simp)
  | .error _, .ok _ => .isFalse (by simp)
  | .ok _, .error _ => .isFalse (by simp)
  | .ok a, .ok b => decidable_of_iff (a = b) (by simp)

/-- The outcome of one `apply` call: the result and the list of paths
for which a request was sent over the wire. -/
structure ApplyOutcome where
  result : Except DiagError (List NormDiagnostic)
  requestsSent : List String
deriving DecidableEq, Repr

/-- Modelled from the spec: `GetDiagnosticsTool.apply` (not in the
sources).  Pre-conditions are checked fail-fast before touching the
server: language-server mode, then existence of the path, then that it
is not a directory; only then is the request sent and the raw items
normalized. -/
def apply_get_diagnostics (ws : Workspace)
    (server : String → Except String (List RawDiagnostic))
    (relPath : String) : ApplyOutcome :=
  if !ws.usingLanguageServer then
    ⟨.error (.noLanguageServer "Cannot get diagnostics; agent is not in language server mode"), []⟩
  else if !ws.pathExists relPath then
    ⟨.error (.fileNotFound ("File " ++ relPath ++ " does not exist in the project")), []⟩
  else if ws.pathIsDir relPath then
    ⟨.error (.expectedFile ("Expected a file path, but got a directory path: " ++ relPath)), []⟩
  else
    match server relPath with
    | .error e =>
      ⟨.error (.languageServerFailure ("Failed to retrieve diagnostics for " ++ relPath ++ ": " ++ e)),
        [relPath]⟩
    | .ok diags => ⟨.ok (diags.map normalize_diagnostic), [relPath]⟩

/-! ### Server-to-client request handlers (F# language server) -/

/-- One entry of a `workspace/configuration` request's `items` list. -/
structure ConfigurationItem where
  scopeUri : Option String
  sectionName : Option String
deriving DecidableEq, Repr

/-- The parameters of a `workspace/configuration` request; the `items`
key may be absent. -/
structure ConfigurationParams where
  items : Option (List ConfigurationItem)
deriving DecidableEq, Repr

/-- `handle_workspace_configuration` from
`FSharpLanguageServer._start_server`: read `items` (defaulting to the
empty list) and reply with as many nulls. -/
def handle_workspace_configuration (params : ConfigurationParams) : List (Option Unit) :=
  List.replicate (params.items.getD []).length none

/-! ### Cross-file wait times -/

namespace SolidLanguageServer

/-- Modelled from the spec: the base class's wait time before the first
cross-file reference/definition query (solidlsp/ls.py is not in the
sources): 5 seconds by default. -/
def get_wait_time_for_cross_file_referencing : ℚ := 5

end SolidLanguageServer

namespace FSharpLanguageServer

/-- `FSharpLanguageServer._get_wait_time_for_cross_file_referencing`:
the F# profile overrides the wait to 15 seconds. -/
def get_wait_time_for_cross_file_referencing : ℚ := 15

end FSharpLanguageServer

/-! ### GUI display detection (serena/util/gui.py) -/

/-- `system_has_usable_display`, with the platform name and the
environment passed explicitly.  On Darwin and Windows a display is
assumed; elsewhere the `DISPLAY` / `WAYLAND_DISPLAY` environment
variables decide (an unset variable reads as the empty string). -/
def system_has_usable_display (system : String)
    (getenv : String → Option String) : Bool :=
  if system == "Darwin" || system == "Windows" then true
  else
    let display := (getenv "DISPLAY").getD ""
    let wayland_display := (getenv "WAYLAND_DISPLAY").getD ""
    if display != "" || wayland_display != "" then true
    else false

/-! ### Dataclass defaults (serena/util/general.py) -/

/-- A dataclass field: `none` stands for the `MISSING` sentinel in
either slot. -/
structure DataclassField (V : Type) where
  default : Option V
  default_factory : Option (Unit → V)

/-- The Python exceptions `get_dataclass_default` can raise. -/
inductive PyError where
  | attributeError (msg : String)
  | keyError (key : String)
deriving DecidableEq, Repr

/-- `get_dataclass_default`: look the field up in
`cls.__dataclass_fields__`, return its `default` if set, else call its
`default_factory` if set, else raise `AttributeError`. -/
def get_dataclass_default {V : Type}
    (dataclass_fields : String → Option (DataclassField V))
    (field_name : String) : Except PyError V :=
  match dataclass_fields field_name with
  | none => .error (.keyError field_name)
  | some field =>
    match field.default with
    | some v => .ok v
    | none =>
      match field.default_factory with
      | some f => .ok (f ())
      | none => .error (.attributeError (field_name ++ " has no default"))

/-! ## Claims -/

/-- C1: the severity-name mapping maps 1 to "error", 2 to "warning",
3 to "information", 4 to "hint", a missing severity to "unknown", and
any other integer n to "unknown(n)". -/
theorem get_severity_name_claim (n : Int) :
    get_severity_name (some 1) = "error" ∧
    get_severity_name (some 2) = "warning" ∧
    get_severity_name (some 3) = "information" ∧
    get_severity_name (some 4) = "hint" ∧
    get_severity_name none = "unknown" ∧
    (n ≠ 1 → n ≠ 2 → n ≠ 3 → n ≠ 4 →
      get_severity_name (some n) = "unknown(" ++ toString n ++ ")") := by
  refine ⟨by decide, by decide, by decide, by decide, rfl, ?_⟩
  intro h1 h2 h3 h4
  simp [get_severity_name, h1, h2, h3, h4]

theorem get_severity_name_claim_witness :
    (999 : Int) ≠ 1 ∧
      get_severity_name (some 999) = "unknown(" ++ toString (999 : Int) ++ ")" :=
  ⟨by decide,
    (get_severity_name_claim 999).2.2.2.2.2 (by decide) (by decide) (by decide) (by decide)⟩

/-- C6: a raw diagnostic lacking the optional fields is normalized to an
item with all keys present: empty `code` and `source`, severity
"unknown" with severity name "unknown", `message` and `range` passed
through. -/
theorem normalize_diagnostic_missing_fields_claim (message : String) (range : LspRange) :
    normalize_diagnostic ⟨none, message, none, none, range⟩ =
      ⟨SeverityVal.unknown, "unknown", message, "", "", range⟩ := rfl

/-- C2: for a call to the diagnostics operation in language-server mode,
a nonexistent relative path fails with `FileNotFound` whose message is
"File p does not exist in the project", and a directory path fails with
`ExpectedFile`; in both cases no request reaches the language server. -/
theorem diagnostics_validation_claim (ws : Workspace)
    (server : String → Except String (List RawDiagnostic)) (p : String)
    (hls : ws.usingLanguageServer = true) :
    (ws.pathExists p = false →
      apply_get_diagnostics ws server p =
        ⟨.error (.fileNotFound ("File " ++ p ++ " does not exist in the project")), []⟩) ∧
    (ws.pathExists p = true → ws.pathIsDir p = true →
      apply_get_diagnostics ws server p =
        ⟨.error (.expectedFile ("Expected a file path, but got a directory path: " ++ p)), []⟩) := by
  constructor
  · intro h
    simp [apply_get_diagnostics, hls, h]
  · intro h1 h2
    simp [apply_get_diagnostics, hls, h1, h2]

theorem diagnostics_validation_claim_witness :
    apply_get_diagnostics ⟨true, fun _ => false, fun _ => false⟩ (fun _ => .ok []) "missing.ext" =
      ⟨.error (.fileNotFound ("File " ++ "missing.ext" ++ " does not exist in the project")), []⟩ :=
  (diagnostics_validation_claim ⟨true, fun _ => false, fun _ => false⟩
    (fun _ => .ok []) "missing.ext" rfl).1 rfl

/-- C4: `is_ignored_dirname` holds exactly when the name begins with
`.`, belongs to the profile's default ignored set, or matches an ignore
pattern; names satisfying none of these (such as "src" and "lib") are
not ignored. -/
theorem is_ignored_dirname_claim (patterns : List String) (d : String) :
    (FSharpLanguageServer.is_ignored_dirname patterns d = true ↔
      startsWithDot d = true ∨ d ∈ FSharpLanguageServer.default_ignored_dirnames ∨
        dirname_matches_spec patterns d = true) ∧
    (TomlLanguageServer.is_ignored_dirname patterns d = true ↔
      startsWithDot d = true ∨ d ∈ TomlLanguageServer.default_ignored_dirnames ∨
        dirname_matches_spec patterns d = true) ∧
    FSharpLanguageServer.is_ignored_dirname [] "src" = false ∧
    FSharpLanguageServer.is_ignored_dirname [] "lib" = false ∧
    TomlLanguageServer.is_ignored_dirname [] "src" = false ∧
    TomlLanguageServer.is_ignored_dirname [] "lib" = false := by
  refine ⟨?_, ?_, by decide, by decide, by decide, by decide⟩
  · simp [FSharpLanguageServer.is_ignored_dirname, SolidLanguageServer.is_ignored_dirname,
      Bool.or_eq_true, List.contains, List.elem_eq_mem]
    tauto
  · simp [TomlLanguageServer.is_ignored_dirname, SolidLanguageServer.is_ignored_dirname,
      Bool.or_eq_true, List.contains, List.elem_eq_mem]
    tauto

/-- C7: the `workspace/configuration` handler replies with exactly as
many nulls as there are items, and with the empty list when `items` is
absent. -/
theorem handle_workspace_configuration_claim (params : ConfigurationParams) :
    (∀ l, params.items = some l →
      (handle_workspace_configuration params).length = l.length ∧
        ∀ r ∈ handle_workspace_configuration params, r = none) ∧
    (params.items = none → handle_workspace_configuration params = []) := by
  constructor
  · intro l hl
    refine ⟨by simp [handle_workspace_configuration, hl], ?_⟩
    intro r hr
    simp [handle_workspace_configuration, hl] at hr
    exact hr.2
  · intro h
    simp [handle_workspace_configuration, h]

theorem handle_workspace_configuration_claim_witness :
    (handle_workspace_configuration ⟨some [⟨none, some "FSharp"⟩, ⟨none, none⟩]⟩).length = 2 :=
  ((handle_workspace_configuration_claim ⟨some [⟨none, some "FSharp"⟩, ⟨none, none⟩]⟩).1
    [⟨none, some "FSharp"⟩, ⟨none, none⟩] rfl).1

/-- C8: the cross-file wait time is 5 seconds by default and the F#
profile overrides it to 15 seconds. -/
theorem cross_file_wait_seconds_claim :
    SolidLanguageServer.get_wait_time_for_cross_file_referencing = 5 ∧
    FSharpLanguageServer.get_wait_time_for_cross_file_referencing = 15 :=
  ⟨rfl, rfl⟩

/-- C9: `system_has_usable_display` is unconditionally true on Darwin
and Windows; on any other platform it is true exactly when `DISPLAY` or
`WAYLAND_DISPLAY` is set to a non-empty string. -/
theorem system_has_usable_display_claim (s : String) (getenv : String → Option String) :
    system_has_usable_display "Darwin" getenv = true ∧
    system_has_usable_display "Windows" getenv = true ∧
    (s ≠ "Darwin" → s ≠ "Windows" →
      (system_has_usable_display s getenv = true ↔
        (getenv "DISPLAY").getD "" ≠ "" ∨ (getenv "WAYLAND_DISPLAY").getD "" ≠ "")) := by
  refine ⟨rfl, rfl, ?_⟩
  intro h1 h2
  have e1 : (s == "Darwin") = false := by simpa using h1
  have e2 : (s == "Windows") = false := by simpa using h2
  simp [system_has_usable_display, e1, e2]

theorem system_has_usable_display_claim_witness :
    system_has_usable_display "Linux" (fun v => if v = "DISPLAY" then some ":0" else none) = true :=
  ((system_has_usable_display_claim "Linux"
      (fun v => if v = "DISPLAY" then some ":0" else none)).2.2
    (by decide) (by decide)).mpr (Or.inl (by decide))

/-- C10: `get_dataclass_default` returns the field's declared default
when set, otherwise the result of calling its `default_factory` when
set, and raises `AttributeError` exactly when the field has neither. -/
theorem get_dataclass_default_claim {V : Type}
    (dataclass_fields : String → Option (DataclassField V))
    (field_name : String) (field : DataclassField V)
    (hf : dataclass_fields field_name = some field) :
    (∀ v, field.default = some v →
      get_dataclass_default dataclass_fields field_name = .ok v) ∧
    (∀ f, field.default = none → field.default_factory = some f →
      get_dataclass_default dataclass_fields field_name = .ok (f ())) ∧
    (get_dataclass_default dataclass_fields field_name =
        .error (.attributeError (field_name ++ " has no default")) ↔
      field.default = none ∧ field.default_factory = none) := by
  obtain ⟨d, df⟩ := field
  refine ⟨?_, ?_, ?_⟩
  · intro v hv
    simp only at hv
    simp [get_dataclass_default, hf, hv]
  · intro f hd hdf
    simp only at hd hdf
    simp [get_dataclass_default, hf, hd, hdf]
  · cases d with
    | some v => simp [get_dataclass_default, hf]
    | none =>
      cases df with
      | some f => simp [get_dataclass_default, hf]
      | none => simp [get_dataclass_default, hf]

theorem filter_references_not_ignored (patterns : List String) (locs : List Location) :
    ∀ l ∈ filter_references patterns locs, ∀ d ∈ l.relativePath.dropLast,
      dirname_matches_spec patterns d = false := by
  intro l hl d hd
  have h1 : (!is_ignored_relpath patterns l.relativePath) = true :=
    (List.mem_filter.mp hl).2
  have h2 : is_ignored_relpath patterns l.relativePath = false := by
    simpa using h1
  rw [is_ignored_relpath] at h2
  have h3 : ¬ ∃ x ∈ l.relativePath.dropLast, dirname_matches_spec patterns x = true := by
    rw [← List.any_eq_true]
    simp [h2]
  push_neg at h3
  simpa using h3 d hd

mutual
theorem pruneEntry_not_ignored (patterns : List String) :
    ∀ t t2, pruneEntry patterns t = some t2 →
      ∀ d ∈ entryDirNames t2, SolidLanguageServer.is_ignored_dirname patterns d = false
  | .file n, t2, h => by
    simp only [pruneEntry, Option.some.injEq] at h
    subst h
    simp [entryDirNames]
  | .dir n cs, t2, h => by
    rw [pruneEntry] at h
    by_cases hn : SolidLanguageServer.is_ignored_dirname patterns n = true
    · simp [hn] at h
    · rw [if_neg (by simp [hn])] at h
      have hn' : SolidLanguageServer.is_ignored_dirname patterns n = false := by
        simpa using hn
      obtain rfl : FSEntry.dir n (pruneForest patterns cs) = t2 := by
        simpa using h
      intro d hd
      rw [entryDirNames] at hd
      rcases List.mem_cons.mp hd with h | h
      · exact h ▸ hn'
      · exact pruneForest_not_ignored patterns cs d h

theorem pruneForest_not_ignored (patterns : List String) :
    ∀ f, ∀ d ∈ forestDirNames (pruneForest patterns f),
      SolidLanguageServer.is_ignored_dirname patterns d = false
  | .nil => by
    simp [pruneForest, forestDirNames]
  | .cons e rest => by
    intro d hd
    rw [pruneForest] at hd
    cases he : pruneEntry patterns e with
    | none =>
      rw [he] at hd
      exact pruneForest_not_ignored patterns rest d hd
    | some e2 =>
      rw [he] at hd
      rw [forestDirNames] at hd
      rcases List.mem_append.mp hd with h | h
      · exact pruneEntry_not_ignored patterns e e2 he d h
      · exact pruneForest_not_ignored patterns rest d h
end

theorem key_lt_trans (a b c : Int × Int × Int) :
    key_lt a b = true → key_lt b c = true → key_lt a c = true := by
  obtain ⟨a1, a2, a3⟩ := a
  obtain ⟨b1, b2, b3⟩ := b
  obtain ⟨c1, c2, c3⟩ := c
  simp only [key_lt, Bool.or_eq_true, Bool.and_eq_true, decide_eq_true_eq, beq_iff_eq]
  omega

theorem key_lt_irrefl (a : Int × Int × Int) : key_lt a a = false := by
  obtain ⟨a1, a2, a3⟩ := a
  simp only [key_lt, Bool.or_eq_false_iff, Bool.and_eq_false_iff, decide_eq_false_iff_not,
    beq_eq_false_iff_ne, ne_eq]
  omega

theorem better_trans (a b c : Candidate) :
    better a b = true → better b c = true → better a c = true :=
  key_lt_trans _ _ _

theorem better_irrefl (a : Candidate) : better a a = false :=
  key_lt_irrefl _

theorem foldl_pick_step_spec :
    ∀ (l : List Candidate) (b0 : Candidate),
      ∃ b, l.foldl pick_step (some b0) = some b ∧ (b = b0 ∨ b ∈ l) ∧
        (b = b0 ∨ better b b0 = true) ∧ ∀ c ∈ l, better c b = false
  | [], b0 => ⟨b0, rfl, Or.inl rfl, Or.inl rfl, by simp⟩
  | c :: rest, b0 => by
    rw [List.foldl_cons]
    by_cases hc : better c b0 = true
    · rw [show pick_step (some b0) c = some c from by simp [pick_step, hc]]
      obtain ⟨b, hb, hmem, hrel, hall⟩ := foldl_pick_step_spec rest c
      refine ⟨b, hb, ?_, ?_, ?_⟩
      · rcases hmem with h | h
        · exact Or.inr (h ▸ List.mem_cons_self c rest)
        · exact Or.inr (List.mem_cons_of_mem _ h)
      · rcases hrel with h | h
        · exact Or.inr (h ▸ hc)
        · exact Or.inr (better_trans _ _ _ h hc)
      · intro d hd
        rcases List.mem_cons.mp hd with h | h
        · subst h
          rcases hrel with hbc | hbc
          · rw [hbc]
            exact better_irrefl _
          · by_contra hdb
            have hdb' : better d b = true := by simpa using hdb
            have : better d d = true := better_trans _ _ _ hdb' hbc
            rw [better_irrefl] at this
            exact Bool.false_ne_true this
        · exact hall d h
    · have hc' : better c b0 = false := by simpa using hc
      rw [show pick_step (some b0) c = some b0 from by simp [pick_step, hc']]
      obtain ⟨b, hb, hmem, hrel, hall⟩ := foldl_pick_step_spec rest b0
      refine ⟨b, hb, ?_, hrel, ?_⟩
      · rcases hmem with h | h
        · exact Or.inl h
        · exact Or.inr (List.mem_cons_of_mem _ h)
      · intro d hd
        rcases List.mem_cons.mp hd with h | h
        · subst h
          rcases hrel with hb0 | hb0
          · exact hb0 ▸ hc'
          · by_contra hdb
            have hdb' : better d b = true := by simpa using hdb
            have : better d b0 = true := better_trans _ _ _ hdb' hb0
            rw [hc'] at this
            exact Bool.false_ne_true this
        · exact hall d h

theorem pick_best_spec (l : List Candidate) :
    ∀ b, pick_best l = some b → b ∈ l ∧ ∀ c ∈ l, better c b = false := by
  intro b hb
  match l with
  | [] => simp [pick_best] at hb
  | c :: rest =>
    rw [pick_best, List.foldl_cons] at hb
    rw [show pick_step none c = some c from rfl] at hb
    obtain ⟨b2, hb2, hmem, hrel, hall⟩ := foldl_pick_step_spec rest c
    rw [hb2, Option.some.injEq] at hb
    rw [← hb]
    constructor
    · rcases hmem with h | h
      · exact h ▸ List.mem_cons_self c rest
      · exact List.mem_cons_of_mem _ h
    · intro d hd
      rcases List.mem_cons.mp hd with h | h
      · subst h
        rcases hrel with hbc | hbc
        · rw [hbc]
          exact better_irrefl _
        · by_contra hdb
          have hdb' : better d b2 = true := by simpa using hdb
          have : better d d = true := better_trans _ _ _ hdb' hbc
          rw [better_irrefl] at this
          exact Bool.false_ne_true this
      · exact hall d h

/-- C5: `containing_symbol` returns `None` (and does not fail) when the
server does not support the lookup; when supported it returns `None`
when no symbol's range contains the position, and otherwise some
symbol is returned and it is the innermost containing one: no other
containing candidate has a smaller range, nor an equal range at
greater depth. -/
theorem request_containing_symbol_claim (line col : Int) :
    request_containing_symbol none line col = none ∧
    (∀ syms : List Candidate, (∀ c ∈ syms, range_contains c.sym.range line col = false) →
      request_containing_symbol (some syms) line col = none) ∧
    (∀ (syms : List Candidate) (s : UnifiedSymbol),
      request_containing_symbol (some syms) line col = some s →
      ∃ c ∈ syms, c.sym = s ∧ range_contains s.range line col = true ∧
        ∀ e ∈ syms, range_contains e.sym.range line col = true → better e c = false) ∧
    (∀ (syms : List Candidate) (c : Candidate), c ∈ syms →
      range_contains c.sym.range line col = true →
      ∃ s, request_containing_symbol (some syms) line col = some s) := by
  refine ⟨rfl, ?_, ?_, ?_⟩
  · intro syms hnone
    have hf : syms.filter (fun c => range_contains c.sym.range line col) = [] := by
      rw [List.filter_eq_nil_iff]
      intro c hc
      simp [hnone c hc]
    rw [request_containing_symbol, hf]
    rfl
  · intro syms s hs
    rw [request_containing_symbol, Option.map_eq_some'] at hs
    obtain ⟨c, hp, hs⟩ := hs
    obtain ⟨hmem, hbest⟩ := pick_best_spec _ c hp
    have hmem' := List.mem_filter.mp hmem
    refine ⟨c, hmem'.1, hs, ?_, ?_⟩
    · rw [← hs]
      simpa using hmem'.2
    · intro e he hcont
      exact hbest e (List.mem_filter.mpr ⟨he, by simpa using hcont⟩)
  · intro syms c hc hcont
    have hmem : c ∈ syms.filter (fun x => range_contains x.sym.range line col) :=
      List.mem_filter.mpr ⟨hc, by simpa using hcont⟩
    cases hfil : syms.filter (fun x => range_contains x.sym.range line col) with
    | nil =>
      rw [hfil] at hmem
      simp at hmem
    | cons f rest =>
      obtain ⟨b, hb, -, -, -⟩ := foldl_pick_step_spec rest f
      refine ⟨b.sym, ?_⟩
      rw [request_containing_symbol, hfil, pick_best, List.foldl_cons,
        show pick_step none f = some f from rfl, hb]
      rfl

theorem request_containing_symbol_claim_witness :
    request_containing_symbol (some [⟨⟨"package", ⟨⟨0, 0⟩, ⟨5, 0⟩⟩⟩, 0⟩]) 10 0 = none ∧
    ∃ s, request_containing_symbol
        (some [⟨⟨"package", ⟨⟨0, 0⟩, ⟨5, 0⟩⟩⟩, 0⟩, ⟨⟨"name", ⟨⟨1, 0⟩, ⟨1, 10⟩⟩⟩, 1⟩])
        1 5 = some s :=
  ⟨(request_containing_symbol_claim 10 0).2.1
      [⟨⟨"package", ⟨⟨0, 0⟩, ⟨5, 0⟩⟩⟩, 0⟩] (by decide),
    (request_containing_symbol_claim 1 5).2.2.2
      [⟨⟨"package", ⟨⟨0, 0⟩, ⟨5, 0⟩⟩⟩, 0⟩, ⟨⟨"name", ⟨⟨1, 0⟩, ⟨1, 10⟩⟩⟩, 1⟩]
      ⟨⟨"name", ⟨⟨1, 0⟩, ⟨1, 10⟩⟩⟩, 1⟩ (by decide) (by decide)⟩

/-- C3: no location surviving the reference post-filter has a relative
path under a directory matched by an `IgnoreSpec` pattern, and no
directory matched by a pattern survives the pruned workspace walk of
`full_symbol_tree`. -/
theorem ignore_filter_claim (patterns : List String) (locs : List Location) (fs : FSForest) :
    (∀ l ∈ filter_references patterns locs, ∀ d ∈ l.relativePath.dropLast,
      dirname_matches_spec patterns d = false) ∧
    (∀ d ∈ forestDirNames (pruneForest patterns fs),
      dirname_matches_spec patterns d = false) := by
  refine ⟨filter_references_not_ignored patterns locs, ?_⟩
  intro d hd
  have h := pruneForest_not_ignored patterns fs d hd
  rw [SolidLanguageServer.is_ignored_dirname] at h
  exact (Bool.or_eq_false_iff.mp h).2

theorem ignore_filter_claim_witness :
    dirname_matches_spec ["scripts", "ignored_*"] "lib" = false :=
  (ignore_filter_claim ["scripts", "ignored_*"]
      [⟨["lib", "models.ex"]⟩, ⟨["scripts", "run.exs"]⟩] FSForest.nil).1
    ⟨["lib", "models.ex"]⟩ (by decide) "lib" (by decide)

theorem get_dataclass_default_claim_witness :
    get_dataclass_default (fun _ => some (⟨none, none⟩ : DataclassField Nat)) "x" =
      .error (.attributeError ("x" ++ " has no default")) :=
  ((get_dataclass_default_claim (fun _ => some (⟨none, none⟩ : DataclassField Nat))
    "x" ⟨none, none⟩ rfl).2.2).mpr ⟨rfl, rfl⟩
